import Mathlib

/-!
Verification development for the FastStream audio configuration engine
(`AudioConfigManager` and its data classes `AudioEQNode`,
`AudioChannelControl`, `AudioProfile`).  JavaScript numbers are modelled as
real numbers (`ℝ`), integer ids and counters as `ℤ`/`ℕ`, timestamps in
milliseconds as `ℤ`, and JavaScript object references as natural-number
heap addresses where aliasing matters.
-/

namespace FastStream

/-- Data class `AudioEQNode` (type, frequency, gain, q).  The constructor's
`parseFloat` on already-numeric inputs is the identity and is dropped. -/
structure AudioEQNode where
  type : String
  frequency : ℝ
  gain : ℝ
  q : ℝ

/-- Data class `AudioChannelControl` (id, gain, muted, solo). -/
structure AudioChannelControl where
  id : ℤ
  gain : ℝ
  muted : Bool
  solo : Bool

/-- Data class `AudioProfile` (id, label, equalizerNodes, mixerChannels). -/
structure AudioProfile where
  id : ℤ
  label : String
  equalizerNodes : List AudioEQNode
  mixerChannels : List AudioChannelControl

/-- The `channels.find((channel) => channel.solo)` call in
`AudioConfigManager.updateMixerNodes`, as the index of the first list entry
whose `solo` flag is set (JavaScript object identity is modelled
positionally; the channel objects in `mixerChannels` are pairwise distinct
allocations). -/
def firstSoloIdxFrom (i : ℕ) : List AudioChannelControl → Option ℕ
  | [] => none
  | c :: rest => if c.solo then some i else firstSoloIdxFrom (i + 1) rest

/-- Index of the first soloed channel, if any (`channels.find(c => c.solo)`). -/
def firstSoloIdx (channels : List AudioChannelControl) : Option ℕ :=
  firstSoloIdxFrom 0 channels

/-- Body of the `channels.forEach` in `AudioConfigManager.updateMixerNodes`:
the gain value pushed for the channel at position `i`, given the position of
the channel found by `find` (`channel !== soloChannel` is position
inequality). -/
def resolveGain (soloIdx : Option ℕ) (i : ℕ) (c : AudioChannelControl) : ℝ :=
  match soloIdx with
  | some j => if i ≠ j ∧ c.id ≠ 6 then 0 else if c.muted then 0 else c.gain
  | none => if c.muted then 0 else c.gain

/-- The per-position traversal of `updateMixerNodes`, accumulating the gain
value pushed to `this.channelGains[channel.id].gain.value` for each channel. -/
def resolveGains (soloIdx : Option ℕ) (i : ℕ) : List AudioChannelControl → List ℝ
  | [] => []
  | c :: rest => resolveGain soloIdx i c :: resolveGains soloIdx (i + 1) rest

/-- `AudioConfigManager.updateMixerNodes`: find the first soloed channel,
then push an effective gain for every channel of the current profile. -/
def updateMixerNodes (channels : List AudioChannelControl) : List ℝ :=
  resolveGains (firstSoloIdx channels) 0 channels

/-- In-place update of the channel object at position `j`
(JavaScript mutation of one element of `mixerChannels`). -/
def modifyAt (f : AudioChannelControl → AudioChannelControl) :
    ℕ → List AudioChannelControl → List AudioChannelControl
  | _, [] => []
  | 0, c :: rest => f c :: rest
  | n + 1, c :: rest => c :: modifyAt f n rest

/-- The `soloButton` click handler in `AudioConfigManager.createMixerChannel`
for the channel at position `j`: if the channel is not yet soloed, first set
`solo = false` on every channel of the profile, then flip the clicked
channel's `solo` flag. -/
def soloClick (channels : List AudioChannelControl) (j : ℕ) :
    List AudioChannelControl :=
  match channels[j]? with
  | none => channels
  | some cj =>
    if cj.solo then
      modifyAt (fun c => { c with solo := false }) j channels
    else
      modifyAt (fun c => { c with solo := true }) j
        (channels.map (fun c => { c with solo := false }))

/-- The channel-padding loop of `AudioConfigManager.refreshMixer`: while the
profile has fewer than 7 mixer channels, push
`new AudioChannelControl(i, 1, false, false)` for the missing indices. -/
def padMixerChannels (cs : List AudioChannelControl) : List AudioChannelControl :=
  if cs.length < 7 then
    cs ++ (List.range (7 - cs.length)).map
      (fun k => ⟨((cs.length + k : ℕ) : ℤ), 1, false, false⟩)
  else cs

/-- At most one channel of the list has its solo flag set. -/
def atMostOneSolo (channels : List AudioChannelControl) : Prop :=
  ∀ (i k : ℕ) (ci ck : AudioChannelControl),
    channels[i]? = some ci → channels[k]? = some ck →
    ci.solo = true → ck.solo = true → i = k

/-- No soloed channel is the master channel (id 6). -/
def soloNonMaster (channels : List AudioChannelControl) : Prop :=
  ∀ (i : ℕ) (ci : AudioChannelControl),
    channels[i]? = some ci → ci.solo = true → ci.id ≠ 6

/-- Modelled from the spec: `Utils.clamp` (utils/Utils.mjs, not included in
the sources) — the standard clamp `min(max(x, lo), hi)` used by the spec's
formulas `clamp(..., 0, 1)` and `clamp(..., -50, 10)`. -/
noncomputable def clamp (x lo hi : ℝ) : ℝ := min (max x lo) hi

/-- `AudioConfigManager.symmetricalLogScaleY`:
`Math.sign(x) * Math.log10(Math.abs(x / c) + 1)`. -/
noncomputable def symmetricalLogScaleY (x c : ℝ) : ℝ :=
  Real.sign x * Real.logb 10 (|x / c| + 1)

/-- `AudioConfigManager.symmetricalLogScaleX`:
`Math.sign(y) * c * (Math.pow(10, Math.abs(y)) - 1)`. -/
noncomputable def symmetricalLogScaleX (y c : ℝ) : ℝ :=
  Real.sign y * c * ((10 : ℝ) ^ |y| - 1)

/-- The constant `c = 40 / Math.log(10)` of the mixer volume curve. -/
noncomputable def mixerC : ℝ := 40 / Real.log 10

/-- `maxY = symmetricalLogScaleY(10, c)` in the mixer mapping functions. -/
noncomputable def mixerMaxY : ℝ := symmetricalLogScaleY 10 mixerC

/-- `minY = symmetricalLogScaleY(-50, c)` in the mixer mapping functions. -/
noncomputable def mixerMinY : ℝ := symmetricalLogScaleY (-50) mixerC

/-- `AudioConfigManager.mixerDBToPositionRatio`. -/
noncomputable def mixerDBToPositionRatio (db : ℝ) : ℝ :=
  if db ≤ -50 then 1
  else
    clamp ((mixerMaxY - symmetricalLogScaleY db mixerC) / (mixerMaxY - mixerMinY))
      0 1

/-- `AudioConfigManager.mixerPositionRatioToDB`; the JavaScript value
`-Infinity` is modelled as `⊥ : EReal`, finite results as real coercions. -/
noncomputable def mixerPositionRatioToDB (r : ℝ) : EReal :=
  if 1 ≤ r then ⊥
  else
    ((clamp (symmetricalLogScaleX (mixerMaxY - r * (mixerMaxY - mixerMinY)) mixerC)
      (-50) 10 : ℝ) : EReal)

/-- The sampled frequency of `AudioConfigManager.renderEqualizerResponse`:
`frequencyArray[i] = Math.min(Math.pow(10, i * step + Math.log10(20)), maxFreq)`
with `step = Math.log10(maxFreq / 20) / bufferLength` and
`maxFreq = sampleRate / 2`. -/
noncomputable def equalizerFrequency (sampleRate : ℝ) (n : ℕ) (i : ℕ) : ℝ :=
  min ((10 : ℝ) ^
      ((i : ℝ) * (Real.logb 10 (sampleRate / 2 / 20) / (n : ℝ)) + Real.logb 10 20))
    (sampleRate / 2)

/-- The inner loop of `renderEqualizerResponse` for one biquad node:
`dbResponse[i] += 20 * Math.log10(currentMagResponse[i])`, where the linear
magnitudes come from the host `node.getFrequencyResponse` call, modelled by
the oracle `mag`.  `i` is the index of the head of the accumulator slice. -/
noncomputable def addNodeResponse (mag : AudioEQNode → ℝ → ℝ) (sampleRate : ℝ)
    (n : ℕ) (node : AudioEQNode) : ℕ → List ℝ → List ℝ
  | _, [] => []
  | i, v :: rest =>
    (v + 20 * Real.logb 10 (mag node (equalizerFrequency sampleRate n i))) ::
      addNodeResponse mag sampleRate n node (i + 1) rest

/-- `AudioConfigManager.renderEqualizerResponse`, synthesis part: start from
the zero-initialized `Float32Array` of length `bufferLength = n` and fold the
per-node decibel contributions over the equalizer chain. -/
noncomputable def renderEqualizerResponse (mag : AudioEQNode → ℝ → ℝ)
    (sampleRate : ℝ) (n : ℕ) (nodes : List AudioEQNode) : List ℝ :=
  nodes.foldl (fun acc node => addNodeResponse mag sampleRate n node 0 acc)
    (List.replicate n 0)

/-- Per-channel peak-meter state stored on the channel's UI record:
`els.peak` (0 stands for the JavaScript falsy values `undefined` and `0`)
and `els.peakTime` in milliseconds. -/
structure MeterState where
  peak : ℤ
  peakTime : ℤ

/-- The LED count of `AudioConfigManager.renderMixerMeters`:
`rectCount = Math.ceil(volHeight / rectHeight)` with
`volHeight = volume * height` and `rectHeight = height / 50`. -/
noncomputable def rectCount (volume height : ℝ) : ℤ :=
  ⌈volume * height / (height / 50)⌉

/-- One per-channel tick of `AudioConfigManager.renderMixerMeters`: update
the stored peak from the current level, then either draw the peak indicator
with the computed opacity (`some` opacity) or reset the peak (`none`). -/
noncomputable def meterTick (s : MeterState) (volume height : ℝ) (now : ℤ) :
    MeterState × Option ℝ :=
  let rc := rectCount volume height
  let p1 := if s.peak = 0 ∨ s.peak < rc then rc else s.peak
  let t1 := if s.peak = 0 ∨ s.peak < rc then now else s.peakTime
  let dt := now - t1
  if dt < 1000 ∧ 1 ≤ p1 then
    (⟨p1, t1⟩, some (if dt < 650 then 1 else 1 - (((dt : ℝ)) - 650) / 350))
  else
    (⟨0, now⟩, none)

/-- Plain-object counterpart of `AudioEQNode` (`toObj` output). -/
structure AudioEQNodeObj where
  type : String
  frequency : ℝ
  gain : ℝ
  q : ℝ

/-- Plain-object counterpart of `AudioChannelControl` (`toObj` output). -/
structure AudioChannelControlObj where
  id : ℤ
  gain : ℝ
  muted : Bool
  solo : Bool

/-- Plain-object counterpart of `AudioProfile`; the two arrays are optional
because `AudioProfile.fromObj` accepts documents in which they are absent
(`obj.equalizerNodes?.map(...) || []`). -/
structure AudioProfileObj where
  id : ℤ
  label : String
  equalizerNodes : Option (List AudioEQNodeObj)
  mixerChannels : Option (List AudioChannelControlObj)

/-- `AudioEQNode.toObj`. -/
def AudioEQNode.toObj (n : AudioEQNode) : AudioEQNodeObj :=
  ⟨n.type, n.frequency, n.gain, n.q⟩

/-- `AudioEQNode.fromObj` (the constructor's `parseFloat` is the identity on
the real-number model). -/
def AudioEQNode.fromObj (o : AudioEQNodeObj) : AudioEQNode :=
  ⟨o.type, o.frequency, o.gain, o.q⟩

/-- `AudioChannelControl.toObj`. -/
def AudioChannelControl.toObj (c : AudioChannelControl) : AudioChannelControlObj :=
  ⟨c.id, c.gain, c.muted, c.solo⟩

/-- `AudioChannelControl.fromObj`. -/
def AudioChannelControl.fromObj (o : AudioChannelControlObj) : AudioChannelControl :=
  ⟨o.id, o.gain, o.muted, o.solo⟩

/-- `AudioProfile.toObj`. -/
def AudioProfile.toObj (p : AudioProfile) : AudioProfileObj :=
  ⟨p.id, p.label, some (p.equalizerNodes.map AudioEQNode.toObj),
    some (p.mixerChannels.map AudioChannelControl.toObj)⟩

/-- `AudioProfile.fromObj`: rebuild a profile from a plain object, defaulting
absent arrays to `[]`. -/
def AudioProfile.fromObj (o : AudioProfileObj) : AudioProfile :=
  ⟨o.id, o.label,
    (o.equalizerNodes.map (List.map AudioEQNode.fromObj)).getD [],
    (o.mixerChannels.map (List.map AudioChannelControl.fromObj)).getD []⟩

/-- `AudioProfile.copy`: `AudioProfile.fromObj(this.toObj())`. -/
def AudioProfile.copy (p : AudioProfile) : AudioProfile :=
  AudioProfile.fromObj p.toObj

/-- The `while` loop of `AudioConfigManager.getNextProfileID`, with explicit
fuel (the loop scans at most `profiles.length + 1` candidate ids before
finding a free one). -/
def nextFreeFrom (ids : List ℤ) : ℤ → ℕ → ℤ
  | id, 0 => id
  | id, fuel + 1 => if id ∈ ids then nextFreeFrom ids (id + 1) fuel else id

/-- `AudioConfigManager.getNextProfileID`: the first integer id from 1
upwards not used by any stored profile. -/
def getNextProfileID (profiles : List AudioProfile) : ℤ :=
  nextFreeFrom (profiles.map (·.id)) 1 (profiles.length + 1)

/-- The profile built by `AudioConfigManager.newProfile` via
`new AudioProfile(getNextProfileID())`: empty node and channel lists and the
auto-label `Profile ${id}`. -/
def newProfileEntry (profiles : List AudioProfile) : AudioProfile :=
  let id := getNextProfileID profiles
  ⟨id, "Profile " ++ toString id, [], []⟩

/-- The import document parsed by `AudioConfigManager.loadProfileFile`
(`{ type, version, profiles }`). -/
structure ProfileDoc where
  type : String
  version : ℤ
  profiles : List AudioProfileObj

/-- One iteration of the `obj.profiles.forEach` loop in `loadProfileFile`:
rebuild the profile, assign it the next free id, disambiguate a colliding
label with a date suffix, and push it onto the store. -/
def importOne (profiles : List AudioProfile) (o : AudioProfileObj)
    (dateSuffix : String) : List AudioProfile :=
  let p := AudioProfile.fromObj o
  let p := { p with id := getNextProfileID profiles }
  let p :=
    if profiles.any (fun t => t.label == p.label) then
      { p with label := p.label ++ dateSuffix }
    else p
  profiles ++ [p]

/-- `AudioConfigManager.loadProfileFile`: documents whose `type` tag is not
`"audioProfile"` are rejected by a thrown error before any store mutation;
otherwise every contained profile is imported in order. -/
def loadProfileFile (profiles : List AudioProfile) (doc : ProfileDoc)
    (dateSuffix : String) : Except String (List AudioProfile) :=
  if doc.type ≠ "audioProfile" then .error "Invalid profile type"
  else .ok (doc.profiles.foldl (fun acc o => importOne acc o dateSuffix) profiles)

/-- The import call site (file-reader `onload` handler in
`updateProfileDropdown`): `loadProfileFile` runs inside `try/catch`, so a
thrown error leaves `this.profiles` as it was. -/
def applyLoadProfileFile (profiles : List AudioProfile) (doc : ProfileDoc)
    (dateSuffix : String) : List AudioProfile :=
  match loadProfileFile profiles doc dateSuffix with
  | .ok ps => ps
  | .error _ => profiles

/-- `AudioConfigManager.deleteProfile`: remove the first occurrence of the
profile (`indexOf` + `splice`), then, if the store became empty, auto-create
one fresh profile via `newProfile`. -/
noncomputable def deleteProfile (profiles : List AudioProfile) (p : AudioProfile) :
    List AudioProfile :=
  let ps := profiles.eraseP (fun q => @decide (q = p) (Classical.propDecidable _))
  if ps.length = 0 then ps ++ [newProfileEntry ps] else ps

/-- Heap model of the `AudioConfigManager` profile store: JavaScript object
references are natural-number addresses, `heap` gives the `AudioProfile`
value stored at each address, `profiles` is the list of addresses held by
`this.profiles`, `current` is the address held by `this.currentProfile`, and
`nextRef` is the next fresh address (every allocation, such as the one
performed by `profile.copy()`, returns `nextRef`). -/
structure ManagerState where
  nextRef : ℕ
  heap : ℕ → AudioProfile
  profiles : List ℕ
  current : Option ℕ

/-- `AudioConfigManager.setCurrentProfile`:
`this.currentProfile = profile.copy()` — allocate a fresh object holding a
deep structural copy of the profile at address `r` and point `current` at
it. -/
def setCurrentProfile (st : ManagerState) (r : ℕ) : ManagerState :=
  { st with
    nextRef := st.nextRef + 1
    heap := Function.update st.heap st.nextRef (st.heap r).copy
    current := some st.nextRef }

/-- The in-place edits the UI performs on the active profile:
`addEQNode` (`this.currentProfile.equalizerNodes.push(node)`), node deletion
(`this.currentProfile.equalizerNodes.splice(i, 1)`), and
`setChannelGain` (`channel.gain = gain` on a channel of
`this.currentProfile.mixerChannels`). -/
inductive ProfileMutation where
  | addEQ (node : AudioEQNode)
  | removeEQ (idx : ℕ)
  | setChannelGain (idx : ℕ) (gain : ℝ)

/-- Effect of one mutation on the profile object it targets. -/
def mutateData (d : AudioProfile) : ProfileMutation → AudioProfile
  | .addEQ node => { d with equalizerNodes := d.equalizerNodes ++ [node] }
  | .removeEQ idx => { d with equalizerNodes := d.equalizerNodes.eraseIdx idx }
  | .setChannelGain idx g =>
    { d with mixerChannels := modifyAt (fun c => { c with gain := g }) idx d.mixerChannels }

/-- Apply one mutation to the object referenced by `this.currentProfile`
(a no-op when no profile is active). -/
def applyMutation (st : ManagerState) (m : ProfileMutation) : ManagerState :=
  match st.current with
  | none => st
  | some r => { st with heap := Function.update st.heap r (mutateData (st.heap r) m) }

/-- A sequence of in-place edits of the active profile. -/
def applyMutations (st : ManagerState) (ms : List ProfileMutation) : ManagerState :=
  ms.foldl applyMutation st

/-- A concrete stored profile used to instantiate the frame theorem. -/
def sampleProfile : AudioProfile :=
  ⟨1, "Profile 1", [⟨"peaking", 1000, 3, 1⟩],
    [⟨0, 1, false, false⟩, ⟨6, 1, false, false⟩]⟩

/-- A concrete manager state: one stored profile at address 0, nothing
active yet. -/
def sampleState : ManagerState :=
  ⟨1, fun _ => sampleProfile, [0], none⟩

/-- A stored channel list with eight entries (one more than the seven the
mixer UI expects). -/
def eightChannels : List AudioChannelControl :=
  List.replicate 8 ⟨0, 1, false, false⟩

/-- Retrieving an entry of the per-channel traversal of `updateMixerNodes`:
the value pushed for position `i` is `resolveGain` of the channel there. -/
theorem resolveGains_getElem (soloIdx : Option ℕ) :
    ∀ (l : List AudioChannelControl) (k i : ℕ),
      (resolveGains soloIdx k l)[i]? = (l[i]?).map (resolveGain soloIdx (k + i))
  | [], _, _ => by simp [resolveGains]
  | c :: rest, k, 0 => by simp [resolveGains]
  | c :: rest, k, i + 1 => by
    have ih := resolveGains_getElem soloIdx rest (k + 1) i
    simpa [resolveGains, Nat.add_assoc, Nat.add_comm 1 i] using ih

/-- `find` returns `none` exactly when no channel of the list is soloed. -/
theorem firstSoloIdxFrom_eq_none (l : List AudioChannelControl) :
    ∀ k : ℕ, firstSoloIdxFrom k l = none ↔ ∀ d ∈ l, d.solo = false := by
  induction l with
  | nil => intro k; simp [firstSoloIdxFrom]
  | cons c rest ih =>
    intro k
    by_cases hc : c.solo
    · simp [firstSoloIdxFrom, hc]
    · simp only [firstSoloIdxFrom, if_neg hc, List.mem_cons]
      rw [ih (k + 1)]
      constructor
      · intro h d hd
        rcases hd with hd | hd
        · subst hd; exact Bool.eq_false_iff.mpr hc
        · exact h d hd
      · intro h d hd; exact h d (Or.inr hd)

/-- When `find` locates a soloed channel, the returned position really holds
a channel with `solo = true`. -/
theorem firstSoloIdxFrom_eq_some (l : List AudioChannelControl) :
    ∀ k j : ℕ, firstSoloIdxFrom k l = some j →
      k ≤ j ∧ ∃ d, l[j - k]? = some d ∧ d.solo = true := by
  induction l with
  | nil => intro k j h; simp [firstSoloIdxFrom] at h
  | cons c rest ih =>
    intro k j h
    by_cases hc : c.solo
    · simp [firstSoloIdxFrom, hc] at h
      subst h
      exact ⟨le_rfl, c, by simp, hc⟩
    · simp only [firstSoloIdxFrom, if_neg hc] at h
      obtain ⟨hk, d, hd, hsolo⟩ := ih (k + 1) j h
      refine ⟨by omega, d, ?_, hsolo⟩
      have : j - k = (j - (k + 1)) + 1 := by omega
      rw [this]
      simpa using hd

/-- C1 (counterexample): with two soloed channels, the claimed union
semantics predicts that the second soloed, unmuted channel (gain 3) keeps
its gain, but `updateMixerNodes` pushes 0 for it — `find` selects only the
first soloed channel. -/
theorem updateMixerNodes_union_cex :
    (updateMixerNodes
      [⟨0, 2, false, true⟩, ⟨1, 3, false, true⟩])[1]? = some 0
    ∧ (0 : ℝ) ≠ 3 := by
  constructor
  · rfl
  · norm_num

/-- C1 (amended): `updateMixerNodes` pushes, for each channel at position
`i`: its own `muted ? 0 : gain` when no channel is soloed, when `i` is the
position of the *first* soloed channel, or when the channel is the master
(id 6); every other channel — including any further soloed channel — is
pushed gain 0.  The last two conjuncts relate `find` to the set of soloed
channels. -/
theorem updateMixerNodes_resolution (channels : List AudioChannelControl)
    (i : ℕ) (c : AudioChannelControl) (hc : channels[i]? = some c) :
    (firstSoloIdx channels = none →
      (updateMixerNodes channels)[i]? = some (if c.muted then 0 else c.gain))
    ∧ (firstSoloIdx channels = some i →
      (updateMixerNodes channels)[i]? = some (if c.muted then 0 else c.gain))
    ∧ (∀ j : ℕ, firstSoloIdx channels = some j → i ≠ j → c.id ≠ 6 →
      (updateMixerNodes channels)[i]? = some 0)
    ∧ (c.id = 6 →
      (updateMixerNodes channels)[i]? = some (if c.muted then 0 else c.gain))
    ∧ (firstSoloIdx channels = none ↔ ∀ d ∈ channels, d.solo = false)
    ∧ (∀ j : ℕ, firstSoloIdx channels = some j →
      ∃ d, channels[j]? = some d ∧ d.solo = true) := by
  have hget : (updateMixerNodes channels)[i]? =
      (channels[i]?).map (resolveGain (firstSoloIdx channels) i) := by
    rw [updateMixerNodes, resolveGains_getElem]
    simp
  refine ⟨?_, ?_, ?_, ?_, ?_, ?_⟩
  · intro hnone
    rw [hget, hc, hnone]
    rfl
  · intro hsome
    rw [hget, hc, hsome]
    simp [resolveGain]
  · intro j hsome hij hid
    rw [hget, hc, hsome]
    simp [resolveGain, hij, hid]
  · intro hid
    rw [hget, hc]
    rcases hfs : firstSoloIdx channels with _ | j
    · rfl
    · simp [resolveGain, hid]
  · exact firstSoloIdxFrom_eq_none channels 0
  · intro j hsome
    obtain ⟨_, d, hd, hsolo⟩ := firstSoloIdxFrom_eq_some channels 0 j hsome
    exact ⟨d, by simpa using hd, hsolo⟩

/-- C1 (witness): a concrete instantiation — channel 1 is the first soloed
channel of a two-channel profile, so the non-soloed channel 0 is pushed 0
and channel 1 keeps its gain. -/
theorem updateMixerNodes_resolution_witness :
    (updateMixerNodes [⟨0, 2, false, false⟩, ⟨1, 3, false, true⟩])[0]? = some 0
    ∧ (updateMixerNodes [⟨0, 2, false, false⟩, ⟨1, 3, false, true⟩])[1]? = some 3 := by
  constructor
  · exact (updateMixerNodes_resolution
      [⟨0, 2, false, false⟩, ⟨1, 3, false, true⟩] 0 ⟨0, 2, false, false⟩ rfl).2.2.1
      1 rfl (by decide) (by decide)
  · have h := (updateMixerNodes_resolution
      [⟨0, 2, false, false⟩, ⟨1, 3, false, true⟩] 1 ⟨1, 3, false, true⟩ rfl).2.1 rfl
    simpa using h

/-- Entries of an in-place single-element update: position `j` is mapped
through `f`, every other position is untouched. -/
theorem modifyAt_getElem (f : AudioChannelControl → AudioChannelControl) :
    ∀ (l : List AudioChannelControl) (j i : ℕ),
      (modifyAt f j l)[i]? = if i = j then (l[i]?).map f else l[i]?
  | [], j, i => by simp [modifyAt]
  | c :: rest, 0, 0 => by simp [modifyAt]
  | c :: rest, 0, i + 1 => by simp [modifyAt]
  | c :: rest, j + 1, 0 => by simp [modifyAt]
  | c :: rest, j + 1, i + 1 => by
    have ih := modifyAt_getElem f rest j i
    simpa [modifyAt] using ih

/-- Entrywise description of the solo click handler when it enables solo on
a not-yet-soloed channel: all solo flags are cleared, then position `j` is
set. -/
theorem soloClick_enable_getElem (channels : List AudioChannelControl) (j : ℕ)
    (cj : AudioChannelControl) (hj : channels[j]? = some cj)
    (hsolo : cj.solo = false) (i : ℕ) :
    (soloClick channels j)[i]? =
      if i = j then some { cj with solo := true }
      else (channels[i]?).map (fun c => { c with solo := false }) := by
  rw [soloClick, hj]
  simp only [hsolo]
  rw [if_neg (by simp)]
  rw [modifyAt_getElem]
  by_cases hij : i = j
  · subst hij
    simp [hj]
  · simp [hij]

/-- C4: the solo click handler keeps solo exclusive.  If the clicked
channel (a non-master one — the master's solo button is hidden) was not
soloed, afterwards exactly the clicked position is soloed and every other
channel's solo flag is cleared; and any state in which at most one,
non-master, channel is soloed still satisfies that invariant after an
arbitrary solo toggle. -/
theorem soloClick_exclusive (channels : List AudioChannelControl) (j : ℕ)
    (cj : AudioChannelControl) (hj : channels[j]? = some cj) (hm : cj.id ≠ 6) :
    (cj.solo = false →
      ∀ i : ℕ, ((soloClick channels j)[i]?).map (fun c => c.solo)
        = (channels[i]?).map (fun _ => decide (i = j)))
    ∧ (atMostOneSolo channels → soloNonMaster channels →
        atMostOneSolo (soloClick channels j) ∧ soloNonMaster (soloClick channels j)) := by
  constructor
  · intro hsolo i
    rw [soloClick_enable_getElem channels j cj hj hsolo i]
    by_cases hij : i = j
    · subst hij
      simp [hj]
    · cases hch : channels[i]? with
      | none => simp [hij]
      | some d => simp [hij]
  · intro h1 h2
    cases hsolo : cj.solo with
    | true =>
      have hchar : ∀ i : ℕ, (soloClick channels j)[i]? =
          if i = j then some { cj with solo := false } else channels[i]? := by
        intro i
        rw [soloClick, hj]
        simp only [hsolo]
        rw [if_pos trivial, modifyAt_getElem]
        by_cases hij : i = j
        · subst hij; simp [hj]
        · simp [hij]
      constructor
      · intro i k ci ck hci hck hsi hsk
        rw [hchar i] at hci
        rw [hchar k] at hck
        by_cases hij : i = j
        · rw [if_pos hij] at hci
          cases hci
          simp at hsi
        · rw [if_neg hij] at hci
          by_cases hkj : k = j
          · rw [if_pos hkj] at hck
            cases hck
            simp at hsk
          · rw [if_neg hkj] at hck
            exact h1 i k ci ck hci hck hsi hsk
      · intro i ci hci hsi
        rw [hchar i] at hci
        by_cases hij : i = j
        · rw [if_pos hij] at hci
          cases hci
          simp at hsi
        · rw [if_neg hij] at hci
          exact h2 i ci hci hsi
    | false =>
      have hchar := soloClick_enable_getElem channels j cj hj hsolo
      constructor
      · intro i k ci ck hci hck hsi hsk
        have hi : i = j := by
          by_contra hij
          rw [hchar i, if_neg hij] at hci
          cases hch : channels[i]? with
          | none => rw [hch] at hci; cases hci
          | some d =>
            rw [hch] at hci
            cases hci
            simp at hsi
        have hk : k = j := by
          by_contra hkj
          rw [hchar k, if_neg hkj] at hck
          cases hch : channels[k]? with
          | none => rw [hch] at hck; cases hck
          | some d =>
            rw [hch] at hck
            cases hck
            simp at hsk
        rw [hi, hk]
      · intro i ci hci hsi
        have hi : i = j := by
          by_contra hij
          rw [hchar i, if_neg hij] at hci
          cases hch : channels[i]? with
          | none => rw [hch] at hci; cases hci
          | some d =>
            rw [hch] at hci
            cases hci
            simp at hsi
        subst hi
        rw [hchar i, if_pos rfl] at hci
        cases hci
        exact hm

/-- C4 (witness): with channel A (position 0) soloed, clicking solo on the
unsoloed non-master channel B (position 1) leaves A's solo flag false and
B's true. -/
theorem soloClick_exclusive_witness :
    ((soloClick [⟨0, 1, false, true⟩, ⟨1, 1, false, false⟩] 1)[0]?).map
      (fun c => c.solo) = some false
    ∧ ((soloClick [⟨0, 1, false, true⟩, ⟨1, 1, false, false⟩] 1)[1]?).map
      (fun c => c.solo) = some true := by
  have h := (soloClick_exclusive [⟨0, 1, false, true⟩, ⟨1, 1, false, false⟩] 1
    ⟨1, 1, false, false⟩ rfl (by decide)).1 rfl
  constructor
  · simpa using h 0
  · simpa using h 1

/-- C6 (counterexample): a stored profile with eight mixer channels is left
at eight entries by the padding loop of `refreshMixer` — nothing truncates
the list down to seven. -/
theorem padMixerChannels_no_truncation_cex :
    (padMixerChannels eightChannels).length ≠ 7 := by
  have h : padMixerChannels eightChannels = eightChannels := by
    rw [padMixerChannels, if_neg (by simp [eightChannels])]
  rw [h]
  simp [eightChannels]

/-- C6 (amended): `refreshMixer` only pads — the channel list ends up with
`max (original length) 7` entries, so exactly 7 only when the stored profile
had at most 7; existing entries are preserved and the padded positions get
fresh channels `AudioChannelControl(i, 1, false, false)`. -/
theorem padMixerChannels_length (cs : List AudioChannelControl) :
    (padMixerChannels cs).length = max cs.length 7
    ∧ (∀ k : ℕ, k < cs.length → (padMixerChannels cs)[k]? = cs[k]?)
    ∧ (∀ k : ℕ, cs.length ≤ k → k < 7 →
        (padMixerChannels cs)[k]? = some ⟨(k : ℤ), 1, false, false⟩) := by
  by_cases h : cs.length < 7
  · rw [padMixerChannels, if_pos h]
    refine ⟨?_, ?_, ?_⟩
    · simp
      omega
    · intro k hk
      exact List.getElem?_append_left hk
    · intro k hk1 hk2
      rw [List.getElem?_append_right (by simpa using hk1)]
      rw [List.getElem?_map, List.getElem?_range (by omega)]
      simp only [Option.map]
      refine congrArg some ?_
      have hk3 : ((cs.length : ℤ)) + ((k - cs.length : ℕ) : ℤ) = (k : ℤ) := by omega
      simp [hk3]
  · rw [padMixerChannels, if_neg h]
    refine ⟨by omega, fun k _ => rfl, fun k hk1 hk2 => absurd (lt_of_le_of_lt hk1 hk2) h⟩

/-- C6 (witness): a five-channel stored profile is padded to exactly seven
entries, position 6 receiving the fresh master channel record. -/
theorem padMixerChannels_length_witness :
    (padMixerChannels (List.replicate 5 ⟨0, 1, false, false⟩)).length = 7
    ∧ (padMixerChannels (List.replicate 5 ⟨0, 1, false, false⟩))[6]?
      = some ⟨6, 1, false, false⟩ := by
  have h := padMixerChannels_length (List.replicate 5 ⟨0, 1, false, false⟩)
  constructor
  · have := h.1
    simpa using this
  · have := h.2.2 6 (by simp) (by norm_num)
    simpa using this

/-- C7: `loadProfileFile` rejects any document whose `type` tag is not
`"audioProfile"` with the thrown (and caught by the caller, hence
recoverable) error `Invalid profile type`, and the profile store is left
completely unchanged. -/
theorem loadProfileFile_invalid_type (profiles : List AudioProfile)
    (doc : ProfileDoc) (dateSuffix : String) (h : doc.type ≠ "audioProfile") :
    loadProfileFile profiles doc dateSuffix = .error "Invalid profile type"
    ∧ applyLoadProfileFile profiles doc dateSuffix = profiles := by
  constructor
  · rw [loadProfileFile, if_pos h]
  · rw [applyLoadProfileFile, loadProfileFile, if_pos h]

/-- C7 (witness): a concrete document with type tag `"notAProfile"` is
rejected and the one-profile store keeps its single entry. -/
theorem loadProfileFile_invalid_type_witness :
    loadProfileFile [sampleProfile] ⟨"notAProfile", 1, []⟩ ""
      = .error "Invalid profile type"
    ∧ applyLoadProfileFile [sampleProfile] ⟨"notAProfile", 1, []⟩ ""
      = [sampleProfile] :=
  loadProfileFile_invalid_type [sampleProfile] ⟨"notAProfile", 1, []⟩ ""
    (by decide)

/-- C8: `deleteProfile` never leaves the store empty — the result always
holds at least one profile, and deleting the only remaining profile
auto-creates exactly one fresh empty profile (id 1, auto-label, no
equalizer nodes, no mixer channels). -/
theorem deleteProfile_nonempty (profiles : List AudioProfile) (p : AudioProfile) :
    0 < (deleteProfile profiles p).length
    ∧ (profiles = [p] → deleteProfile profiles p = [newProfileEntry []])
    ∧ (newProfileEntry []).equalizerNodes = []
    ∧ (newProfileEntry []).mixerChannels = [] := by
  refine ⟨?_, ?_, rfl, rfl⟩
  · rw [deleteProfile]
    by_cases h : (profiles.eraseP
        (fun q => @decide (q = p) (Classical.propDecidable _))).length = 0
    · rw [if_pos h]
      simp
    · rw [if_neg h]
      omega
  · intro hp
    subst hp
    rw [deleteProfile]
    have herase : ([p].eraseP
        (fun q => @decide (q = p) (Classical.propDecidable _))) = [] := by
      rw [List.eraseP_cons_of_pos]
      simp
    rw [herase]
    simp

/-- C8 (witness): deleting the single stored sample profile yields exactly
the freshly auto-created empty profile. -/
theorem deleteProfile_nonempty_witness :
    0 < (deleteProfile [sampleProfile] sampleProfile).length
    ∧ deleteProfile [sampleProfile] sampleProfile = [newProfileEntry []] :=
  ⟨(deleteProfile_nonempty [sampleProfile] sampleProfile).1,
   (deleteProfile_nonempty [sampleProfile] sampleProfile).2.1 rfl⟩

/-- `AudioProfile.copy` is a deep structural copy: the value read back from
the serialized plain object is the original profile value. -/
theorem AudioProfile.copy_eq (p : AudioProfile) : p.copy = p := by
  cases p with
  | mk pid plabel eqNodes mixChannels =>
    have h1 : (eqNodes.map AudioEQNode.toObj).map AudioEQNode.fromObj = eqNodes := by
      rw [List.map_map]
      have h : AudioEQNode.fromObj ∘ AudioEQNode.toObj = fun n => n :=
        funext fun n => rfl
      rw [h, List.map_id']
    have h2 : (mixChannels.map AudioChannelControl.toObj).map
        AudioChannelControl.fromObj = mixChannels := by
      rw [List.map_map]
      have h : AudioChannelControl.fromObj ∘ AudioChannelControl.toObj = fun c => c :=
        funext fun c => rfl
      rw [h, List.map_id']
    simp [AudioProfile.copy, AudioProfile.fromObj, AudioProfile.toObj, h1, h2]

/-- In-place edits of the active profile only write to the heap cell the
`currentProfile` reference points at; the profile list and every other heap
cell are untouched. -/
theorem applyMutations_frame (ms : List ProfileMutation) :
    ∀ (s : ManagerState) (r : ℕ), s.current = some r →
      (applyMutations s ms).profiles = s.profiles
      ∧ (applyMutations s ms).current = s.current
      ∧ ∀ q : ℕ, q ≠ r → (applyMutations s ms).heap q = s.heap q := by
  induction ms with
  | nil => exact fun s r _ => ⟨rfl, rfl, fun _ _ => rfl⟩
  | cons m rest ih =>
    intro s r hc
    have hstep : applyMutation s m =
        { s with heap := Function.update s.heap r (mutateData (s.heap r) m) } := by
      rw [applyMutation, hc]
    have hc1 : (applyMutation s m).current = some r := by rw [hstep]; exact hc
    obtain ⟨hp, hcur, hh⟩ := ih (applyMutation s m) r hc1
    have hfold : applyMutations s (m :: rest) = applyMutations (applyMutation s m) rest :=
      rfl
    refine ⟨?_, ?_, ?_⟩
    · rw [hfold, hp, hstep]
    · rw [hfold, hcur, hstep]
    · intro q hq
      rw [hfold, hh q hq, hstep]
      exact Function.update_noteq hq _ _

/-- C9: `setCurrentProfile` installs a deep structural copy of the stored
profile into a freshly allocated object, so any sequence of subsequent
in-place edits of the active profile (adding or removing equalizer nodes,
changing a channel gain) leaves the profile list and every stored profile's
fields unchanged in the store. -/
theorem setCurrentProfile_isolates_store (st : ManagerState) (r0 : ℕ)
    (ms : List ProfileMutation) (hwf : ∀ q ∈ st.profiles, q < st.nextRef) :
    (st.heap r0).copy = st.heap r0
    ∧ (setCurrentProfile st r0).heap st.nextRef = st.heap r0
    ∧ (applyMutations (setCurrentProfile st r0) ms).profiles = st.profiles
    ∧ ∀ q ∈ st.profiles,
        (applyMutations (setCurrentProfile st r0) ms).heap q = st.heap q := by
  have hcopy := AudioProfile.copy_eq (st.heap r0)
  have hcur : (setCurrentProfile st r0).current = some st.nextRef := rfl
  obtain ⟨hp, _, hh⟩ := applyMutations_frame ms (setCurrentProfile st r0) st.nextRef hcur
  refine ⟨hcopy, ?_, ?_, ?_⟩
  · rw [setCurrentProfile]
    simp [Function.update_same, hcopy]
  · exact hp.trans rfl
  · intro q hq
    have hne : q ≠ st.nextRef := Nat.ne_of_lt (hwf q hq)
    rw [hh q hne, setCurrentProfile]
    simp [Function.update_noteq hne]

/-- C9 (witness): in the concrete one-profile store, activating the stored
profile and then pushing an equalizer node onto the active copy leaves the
stored profile's heap cell unchanged. -/
theorem setCurrentProfile_isolates_store_witness :
    (applyMutations (setCurrentProfile sampleState 0)
      [.addEQ ⟨"peaking", 1000, 3, 1⟩]).heap 0 = sampleState.heap 0 :=
  (setCurrentProfile_isolates_store sampleState 0 [.addEQ ⟨"peaking", 1000, 3, 1⟩]
    (by intro q hq; simp [sampleState] at hq; simp [sampleState, hq])).2.2.2 0
    (by simp [sampleState])

/-- Entries of the per-node accumulation loop: position `i` of the output is
the accumulator entry plus the node's decibel contribution at the sampled
frequency of absolute index `k + i`. -/
theorem addNodeResponse_getElem (mag : AudioEQNode → ℝ → ℝ) (sampleRate : ℝ)
    (n : ℕ) (node : AudioEQNode) :
    ∀ (acc : List ℝ) (k i : ℕ),
      (addNodeResponse mag sampleRate n node k acc)[i]? =
        (acc[i]?).map
          (fun v => v + 20 * Real.logb 10 (mag node (equalizerFrequency sampleRate n (k + i))))
  | [], _, _ => by simp [addNodeResponse]
  | v :: rest, k, 0 => by simp [addNodeResponse]
  | v :: rest, k, i + 1 => by
    have ih := addNodeResponse_getElem mag sampleRate n node rest (k + 1) i
    simpa [addNodeResponse, Nat.add_assoc, Nat.add_comm 1 i] using ih

/-- Folding the whole equalizer chain over an accumulator adds, at every
position, the sum of the per-node decibel contributions at that position's
sampled frequency. -/
theorem response_foldl_getElem (mag : AudioEQNode → ℝ → ℝ) (sampleRate : ℝ)
    (n : ℕ) :
    ∀ (nodes : List AudioEQNode) (acc : List ℝ) (i : ℕ),
      (nodes.foldl (fun a node => addNodeResponse mag sampleRate n node 0 a) acc)[i]? =
        (acc[i]?).map
          (fun v => v + (nodes.map (fun node =>
            20 * Real.logb 10 (mag node (equalizerFrequency sampleRate n i)))).sum) := by
  intro nodes
  induction nodes with
  | nil =>
    intro acc i
    cases h : acc[i]? with
    | none => simp [h]
    | some v => simp [h]
  | cons node rest ih =>
    intro acc i
    rw [List.foldl_cons, ih, addNodeResponse_getElem]
    cases h : acc[i]? with
    | none => simp [h]
    | some v =>
      simp only [h, Option.map_map, Option.map, Function.comp, List.map_cons,
        List.sum_cons]
      refine congrArg some ?_
      simp only [Nat.zero_add]
      ring

/-- C3: `renderEqualizerResponse` produces `n` decibel samples; sample `i`
is the sum, over all chain stages, of `20·log10` of the stage's linear
magnitude at the frequency `min(10^(i·step + log10 20), sampleRate/2)` with
`step = log10((sampleRate/2)/20)/n`; for the empty chain every sample is
exactly 0 dB. -/
theorem renderEqualizerResponse_characterization (mag : AudioEQNode → ℝ → ℝ)
    (sampleRate : ℝ) (n : ℕ) (nodes : List AudioEQNode) :
    (renderEqualizerResponse mag sampleRate n nodes).length = n
    ∧ (∀ i : ℕ, i < n →
        (renderEqualizerResponse mag sampleRate n nodes)[i]? =
          some ((nodes.map (fun node => 20 * Real.logb 10 (mag node
            (min ((10 : ℝ) ^ ((i : ℝ) * (Real.logb 10 (sampleRate / 2 / 20) / (n : ℝ))
              + Real.logb 10 20)) (sampleRate / 2))))).sum))
    ∧ (∀ i : ℕ, i < n → (renderEqualizerResponse mag sampleRate n [])[i]? = some 0) := by
  have hlen : ∀ (node : AudioEQNode) (acc : List ℝ) (k : ℕ),
      (addNodeResponse mag sampleRate n node k acc).length = acc.length := by
    intro node acc
    induction acc with
    | nil => intro k; rfl
    | cons v rest ih => intro k; simp [addNodeResponse, ih]
  have hfoldlen : ∀ (ns : List AudioEQNode) (acc : List ℝ),
      (ns.foldl (fun a node => addNodeResponse mag sampleRate n node 0 a) acc).length
        = acc.length := by
    intro ns
    induction ns with
    | nil => intro acc; rfl
    | cons node rest ih =>
      intro acc
      rw [List.foldl_cons, ih, hlen]
  refine ⟨?_, ?_, ?_⟩
  · rw [renderEqualizerResponse, hfoldlen]
    exact List.length_replicate n 0
  · intro i hi
    rw [renderEqualizerResponse, response_foldl_getElem]
    rw [List.getElem?_replicate_of_lt hi]
    simp only [Option.map]
    exact congrArg some (zero_add _)
  · intro i hi
    rw [renderEqualizerResponse, response_foldl_getElem]
    rw [List.getElem?_replicate_of_lt hi]
    simp

/-- C3 (witness): with a two-sample resolution and the empty chain, sample 0
of the synthesized response is exactly 0 dB. -/
theorem renderEqualizerResponse_characterization_witness :
    (renderEqualizerResponse (fun _ _ => 1) 44100 2 []).length = 2
    ∧ (renderEqualizerResponse (fun _ _ => 1) 44100 2 [])[0]? = some 0 :=
  ⟨(renderEqualizerResponse_characterization (fun _ _ => 1) 44100 2 []).1,
   (renderEqualizerResponse_characterization (fun _ _ => 1) 44100 2 []).2.2 0
     (by norm_num)⟩

/-- C5: for any positive meter height the LED count is `⌈50 · level⌉`, and
one meter tick equals the claimed update/decay normal form, which depends
only on `(storedPeak, peakTimestamp, now)` and the level sample: the stored
peak is replaced when absent or exceeded (timestamp set to `now`); with
`dt = now - peakTimestamp`, if `dt < 1000` and the peak is at least 1 the
indicator is drawn with opacity `dt < 650 ? 1 : 1 - (dt - 650)/350`,
otherwise the peak resets to 0 at `now`.  The final conjuncts check the
concrete 10-unit-peak example at `t = 0`, `700` and `1100` ms. -/
theorem meterTick_peak_decay (s : MeterState) (v h : ℝ) (now : ℤ) (hh : 0 < h) :
    rectCount v h = ⌈(50 : ℝ) * v⌉
    ∧ meterTick s v h now =
        (let rc := ⌈(50 : ℝ) * v⌉
         let p1 := if s.peak = 0 ∨ s.peak < rc then rc else s.peak
         let t1 := if s.peak = 0 ∨ s.peak < rc then now else s.peakTime
         let dt := now - t1
         if dt < 1000 ∧ 1 ≤ p1 then
           (⟨p1, t1⟩, some (if dt < 650 then 1 else 1 - (((dt : ℝ)) - 650) / 350))
         else
           (⟨0, now⟩, none))
    ∧ meterTick ⟨0, 0⟩ (1 / 5) h 0 = (⟨10, 0⟩, some 1)
    ∧ meterTick ⟨10, 0⟩ 0 h 700 = (⟨10, 0⟩, some (1 - 50 / 350))
    ∧ meterTick ⟨10, 0⟩ 0 h 1100 = (⟨0, 1100⟩, none) := by
  have hrc : ∀ w : ℝ, rectCount w h = ⌈(50 : ℝ) * w⌉ := by
    intro w
    rw [rectCount]
    congr 1
    field_simp
    ring
  have hten : (⌈(50 : ℝ) * (1 / 5)⌉ : ℤ) = 10 := by
    have : (50 : ℝ) * (1 / 5) = ((10 : ℤ) : ℝ) := by norm_num
    rw [this, Int.ceil_intCast]
  have hzero : (⌈(50 : ℝ) * 0⌉ : ℤ) = 0 := by
    rw [mul_zero, Int.ceil_zero]
  refine ⟨hrc v, ?_, ?_, ?_, ?_⟩
  · rw [meterTick, hrc v]
  · rw [meterTick, hrc (1 / 5), hten]
    norm_num
  · rw [meterTick, hrc 0, hzero]
    norm_num
  · rw [meterTick, hrc 0, hzero]
    norm_num

/-- C5 (witness): a stored 10-unit peak from `t = 0` is reset to 0 by the
tick at `t = 1100` ms. -/
theorem meterTick_peak_decay_witness :
    meterTick ⟨10, 0⟩ 0 1 1100 = (⟨0, 1100⟩, none) :=
  (meterTick_peak_decay ⟨0, 0⟩ 0 1 0 one_pos).2.2.2.2

/-- Positive-argument form of the symmetric log curve. -/
theorem symY_of_pos (c x : ℝ) (hc : 0 < c) (hx : 0 < x) :
    symmetricalLogScaleY x c = Real.logb 10 (x / c + 1) := by
  rw [symmetricalLogScaleY, Real.sign_of_pos hx,
    abs_of_pos (div_pos hx hc), one_mul]

/-- Negative-argument form of the symmetric log curve. -/
theorem symY_of_neg (c x : ℝ) (hc : 0 < c) (hx : x < 0) :
    symmetricalLogScaleY x c = -Real.logb 10 (-x / c + 1) := by
  rw [symmetricalLogScaleY, Real.sign_of_neg hx,
    abs_of_neg (div_neg_of_neg_of_pos hx hc), neg_div, neg_one_mul]

/-- The symmetric log curve vanishes at 0. -/
theorem symY_zero (c : ℝ) : symmetricalLogScaleY 0 c = 0 := by
  rw [symmetricalLogScaleY, Real.sign_zero, zero_mul]

/-- The symmetric log curve is positive on positive arguments. -/
theorem symY_pos_of_pos (c x : ℝ) (hc : 0 < c) (hx : 0 < x) :
    0 < symmetricalLogScaleY x c := by
  rw [symY_of_pos c x hc hx]
  refine Real.logb_pos (by norm_num) ?_
  have := div_pos hx hc
  linarith

/-- The symmetric log curve is negative on negative arguments. -/
theorem symY_neg_of_neg (c x : ℝ) (hc : 0 < c) (hx : x < 0) :
    symmetricalLogScaleY x c < 0 := by
  rw [symY_of_neg c x hc hx, neg_lt_zero]
  refine Real.logb_pos (by norm_num) ?_
  have : 0 < -x / c := div_pos (by linarith) hc
  linarith

/-- The symmetric log curve is strictly monotone (for a positive scale
constant). -/
theorem symY_strictMono (c : ℝ) (hc : 0 < c) :
    StrictMono (fun x => symmetricalLogScaleY x c) := by
  intro a b hab
  simp only []
  rcases lt_trichotomy a 0 with ha | ha | ha
  · rcases lt_trichotomy b 0 with hb | hb | hb
    · rw [symY_of_neg c a hc ha, symY_of_neg c b hc hb, neg_lt_neg_iff]
      refine Real.logb_lt_logb (by norm_num) ?_ ?_
      · have h1 : 0 < -b / c := div_pos (by linarith) hc
        linarith
      · have h1 : -b / c < -a / c := (div_lt_div_iff_of_pos_right hc).mpr (by linarith)
        linarith
    · subst hb
      rw [symY_zero]
      exact symY_neg_of_neg c a hc ha
    · exact lt_trans (symY_neg_of_neg c a hc ha) (symY_pos_of_pos c b hc hb)
  · subst ha
    rw [symY_zero]
    exact symY_pos_of_pos c b hc hab
  · rw [symY_of_pos c a hc ha, symY_of_pos c b hc (lt_trans ha hab)]
    refine Real.logb_lt_logb (by norm_num) ?_ ?_
    · have h1 : 0 < a / c := div_pos ha hc
      linarith
    · have h1 : a / c < b / c := (div_lt_div_iff_of_pos_right hc).mpr hab
      linarith

/-- `symmetricalLogScaleX` inverts `symmetricalLogScaleY` exactly (for a
positive scale constant). -/
theorem symXY_inverse (c x : ℝ) (hc : 0 < c) :
    symmetricalLogScaleX (symmetricalLogScaleY x c) c = x := by
  rcases lt_trichotomy x 0 with hx | hx | hx
  · rw [symY_of_neg c x hc hx, symmetricalLogScaleX]
    have hL : 0 < Real.logb 10 (-x / c + 1) := by
      refine Real.logb_pos (by norm_num) ?_
      have h1 : 0 < -x / c := div_pos (by linarith) hc
      linarith
    rw [Real.sign_of_neg (neg_lt_zero.mpr hL), abs_neg, abs_of_pos hL]
    rw [Real.rpow_logb (by norm_num) (by norm_num)
      (by
        have h1 : 0 < -x / c := div_pos (by linarith) hc
        linarith)]
    field_simp
  · subst hx
    rw [symY_zero, symmetricalLogScaleX, Real.sign_zero, abs_zero,
      Real.rpow_zero]
    ring
  · rw [symY_of_pos c x hc hx, symmetricalLogScaleX]
    have hL : 0 < Real.logb 10 (x / c + 1) := by
      refine Real.logb_pos (by norm_num) ?_
      have h1 : 0 < x / c := div_pos hx hc
      linarith
    rw [Real.sign_of_pos hL, abs_of_pos hL]
    rw [Real.rpow_logb (by norm_num) (by norm_num)
      (by
        have h1 : 0 < x / c := div_pos hx hc
        linarith)]
    field_simp

/-- The mixer curve constant is positive. -/
theorem mixerC_pos : 0 < mixerC :=
  div_pos (by norm_num) (Real.log_pos (by norm_num))

/-- The top anchor of the mixer volume curve is positive. -/
theorem mixerMaxY_pos : 0 < mixerMaxY :=
  symY_pos_of_pos mixerC 10 mixerC_pos (by norm_num)

/-- The bottom anchor of the mixer volume curve is negative. -/
theorem mixerMinY_neg : mixerMinY < 0 :=
  symY_neg_of_neg mixerC (-50) mixerC_pos (by norm_num)

/-- The span of the mixer volume curve is positive. -/
theorem mixer_span_pos : 0 < mixerMaxY - mixerMinY := by
  have h1 := mixerMaxY_pos
  have h2 := mixerMinY_neg
  linarith

/-- C2 (counterexample): at `db = -50` — inside the claimed interval
`[-50, 10]` — the round trip does not return `-50`: the forward map yields
ratio 1, which maps back to `-Infinity`. -/
theorem mixer_roundtrip_cex :
    mixerPositionRatioToDB (mixerDBToPositionRatio (-50)) ≠ ((-50 : ℝ) : EReal) := by
  have h1 : mixerDBToPositionRatio (-50) = 1 := by
    rw [mixerDBToPositionRatio, if_pos le_rfl]
  rw [h1, mixerPositionRatioToDB, if_pos le_rfl]
  exact EReal.bot_ne_coe (-50)

/-- C2 (amended): the position/decibel round trip is exact on the half-open
interval `(-50, 10]`; every ratio at or above 1 maps to `-Infinity` exactly;
every decibel value at or below `-50` maps to ratio 1 exactly.  (At
`db = -50` itself the round trip returns `-Infinity`, not `-50`.) -/
theorem mixer_db_position_roundtrip :
    (∀ db : ℝ, -50 < db → db ≤ 10 →
      mixerPositionRatioToDB (mixerDBToPositionRatio db) = ((db : ℝ) : EReal))
    ∧ (∀ r : ℝ, 1 ≤ r → mixerPositionRatioToDB r = ⊥)
    ∧ (∀ db : ℝ, db ≤ -50 → mixerDBToPositionRatio db = 1) := by
  refine ⟨?_, ?_, ?_⟩
  · intro db h1 h2
    have hmono := symY_strictMono mixerC mixerC_pos
    have hymin : mixerMinY < symmetricalLogScaleY db mixerC := hmono h1
    have hymax : symmetricalLogScaleY db mixerC ≤ mixerMaxY := hmono.monotone h2
    have hD := mixer_span_pos
    have hr0 : 0 ≤ (mixerMaxY - symmetricalLogScaleY db mixerC) / (mixerMaxY - mixerMinY) :=
      div_nonneg (by linarith) hD.le
    have hr1 : (mixerMaxY - symmetricalLogScaleY db mixerC) / (mixerMaxY - mixerMinY) < 1 :=
      (div_lt_one hD).mpr (by linarith)
    have hratio : mixerDBToPositionRatio db =
        (mixerMaxY - symmetricalLogScaleY db mixerC) / (mixerMaxY - mixerMinY) := by
      rw [mixerDBToPositionRatio, if_neg (by linarith), clamp,
        max_eq_left hr0, min_eq_left hr1.le]
    rw [hratio, mixerPositionRatioToDB, if_neg (not_le.mpr hr1)]
    have hyy : mixerMaxY -
        (mixerMaxY - symmetricalLogScaleY db mixerC) / (mixerMaxY - mixerMinY)
          * (mixerMaxY - mixerMinY) = symmetricalLogScaleY db mixerC := by
      field_simp
    rw [hyy, symXY_inverse mixerC db mixerC_pos, clamp,
      max_eq_left (by linarith), min_eq_left h2]
  · intro r hr
    rw [mixerPositionRatioToDB, if_pos hr]
  · intro db hdb
    rw [mixerDBToPositionRatio, if_pos hdb]

/-- C2 (witness): the round trip is exact at `db = 0`, the hard-mute
boundary maps ratio 1 to `-Infinity`, and `db = -50` maps to ratio 1. -/
theorem mixer_db_position_roundtrip_witness :
    mixerPositionRatioToDB (mixerDBToPositionRatio 0) = ((0 : ℝ) : EReal)
    ∧ mixerPositionRatioToDB 1 = ⊥
    ∧ mixerDBToPositionRatio (-50) = 1 :=
  ⟨mixer_db_position_roundtrip.1 0 (by norm_num) (by norm_num),
   mixer_db_position_roundtrip.2.1 1 le_rfl,
   mixer_db_position_roundtrip.2.2 (-50) le_rfl⟩

/-- C10: `mixerDBToPositionRatio` always lands in `[0, 1]`, and it is
monotone non-increasing on `[-50, 10]`: a larger decibel value never maps to
a larger (lower-on-screen) position ratio. -/
theorem mixerDBToPositionRatio_bounds_antitone :
    (∀ db : ℝ, 0 ≤ mixerDBToPositionRatio db ∧ mixerDBToPositionRatio db ≤ 1)
    ∧ (∀ db1 db2 : ℝ, -50 ≤ db1 → db1 ≤ db2 → db2 ≤ 10 →
        mixerDBToPositionRatio db2 ≤ mixerDBToPositionRatio db1) := by
  constructor
  · intro db
    rw [mixerDBToPositionRatio]
    by_cases h : db ≤ -50
    · rw [if_pos h]
      exact ⟨zero_le_one, le_rfl⟩
    · rw [if_neg h, clamp]
      exact ⟨le_min (le_max_right _ _) zero_le_one, min_le_right _ _⟩
  · intro db1 db2 h50 h12 h10
    by_cases hb2 : db2 ≤ -50
    · have hb1 : db1 ≤ -50 := le_trans h12 hb2
      rw [mixerDBToPositionRatio, mixerDBToPositionRatio, if_pos hb1, if_pos hb2]
    · by_cases hb1 : db1 ≤ -50
      · rw [mixerDBToPositionRatio, mixerDBToPositionRatio, if_pos hb1,
          if_neg hb2, clamp]
        exact min_le_right _ _
      · rw [mixerDBToPositionRatio, mixerDBToPositionRatio, if_neg hb1, if_neg hb2]
        have hmono := (symY_strictMono mixerC mixerC_pos).monotone h12
        have hD := mixer_span_pos
        have hdiv : (mixerMaxY - symmetricalLogScaleY db2 mixerC) / (mixerMaxY - mixerMinY)
            ≤ (mixerMaxY - symmetricalLogScaleY db1 mixerC) / (mixerMaxY - mixerMinY) :=
          (div_le_div_iff_of_pos_right hD).mpr (by linarith)
        rw [clamp, clamp]
        exact min_le_min (max_le_max hdiv le_rfl) le_rfl

/-- C10 (witness): the bounds hold at `db = 0`, and the antitone property
gives `ratio(0) ≤ ratio(-10)`. -/
theorem mixerDBToPositionRatio_bounds_antitone_witness :
    (0 ≤ mixerDBToPositionRatio 0 ∧ mixerDBToPositionRatio 0 ≤ 1)
    ∧ mixerDBToPositionRatio 0 ≤ mixerDBToPositionRatio (-10) :=
  ⟨mixerDBToPositionRatio_bounds_antitone.1 0,
   mixerDBToPositionRatio_bounds_antitone.2 (-10) 0 (by norm_num) (by norm_num)
     (by norm_num)⟩

end FastStream
